import Mathlib

/-!
Verification of the bank-statement extraction pipeline
(`bank_statement_parser.py`): the ordered multi-parser fallback protocol
in `run_parsers`, the text-caching contract of `BaseFileParser.get_text`
backed by `PdfParser`'s file cache, and the month-bucketing aggregation.

The Python module is embedded shallowly: parser method calls are modelled
as pure functions returning a `PyResult` (normal return, raised
`ValueError`, or any other raised exception), and the pipeline produces a
trace of the calls it makes so that claims about which parsers are
queried can be stated.
-/

set_option linter.unusedVariables false

namespace BankStatement

/-- A transaction record. The core pipeline only inspects the `date`
field (`t['date']` in the source); all other fields of the Python dict
are opaque to it and collapsed into `descr`. -/
structure Transaction where
  date : String
  descr : String
deriving DecidableEq, Repr

/-- Outcome of calling a Python method: a normal return, a raised
`ValueError` (the kind `run_parsers` catches), or any other raised
exception (uncaught by the pipeline). -/
inductive PyResult (α : Type) where
  | ok : α → PyResult α
  | valueError : String → PyResult α
  | otherError : String → PyResult α
deriving DecidableEq, Repr

/-- An error escaping `run_parsers`: either a `ValueError` (the
"no parser matched" raise at line 146 of the source) or a propagated
exception of another kind. -/
inductive PyErr where
  | valueError : String → PyErr
  | otherError : String → PyErr
deriving DecidableEq, Repr

/-- Observable calls made by the pipeline, recorded in order: each
`parser.get_text(pdf_path, use_cache=..., clear_cache=...)` call and each
`parser.to_transactions(text)` call, tagged with the position of the
parser in the configured list. -/
inductive Event where
  | getTextCall : Nat → String → Bool → Bool → Event
  | extractCall : Nat → String → String → Event
deriving DecidableEq, Repr

/-- The document an event concerns. -/
def Event.doc : Event → String
  | .getTextCall _ d _ _ => d
  | .extractCall _ d _ => d

/-- The position (in the configured parser list) of the parser the event
was sent to. -/
def Event.parserIdx : Event → Nat
  | .getTextCall i _ _ _ => i
  | .extractCall i _ _ => i

/-- Abstract behaviour of one configured parser, as `run_parsers` sees
it: `getText` is the parser's `get_text(file_path, use_cache,
clear_cache)` and `toTransactions` its `to_transactions(text)` (forced
through `list(...)` by the source). -/
structure Parser where
  getText : String → Bool → Bool → PyResult String
  toTransactions : String → PyResult (List Transaction)

/-- What one iteration of the inner `for parser in parsers` loop body
does: fall through to the next parser, break having committed to a
non-empty transaction list, break out of the loop in text-only mode, or
propagate an uncaught exception. -/
inductive StepOut where
  | next : StepOut
  | committed : List Transaction → StepOut
  | textBreak : StepOut
  | fatal : String → StepOut
deriving DecidableEq, Repr

/-- One iteration of the inner loop of `run_parsers` (lines 127-144 of
the source): call `get_text`; on a raised `ValueError` fall through; if
the text is falsy (empty) fall through; in `only_text` mode break; else
call `to_transactions`, falling through on `ValueError` or an empty
list and breaking with the list otherwise. Exceptions that are not
`ValueError` are not caught. -/
def stepOut (p : Parser) (doc : String) (use_cache clear_cache only_text : Bool) : StepOut :=
  match p.getText doc use_cache clear_cache with
  | .valueError _ => .next
  | .otherError m => .fatal m
  | .ok text =>
    if text = "" then .next
    else if only_text then .textBreak
    else
      match p.toTransactions text with
      | .valueError _ => .next
      | .otherError m => .fatal m
      | .ok ts => if ts = [] then .next else .committed ts

/-- The calls the same loop iteration makes: `get_text` always fires;
`to_transactions` fires exactly when the text is non-empty and the run
is not in text-only mode. -/
def stepEvents (idx : Nat) (p : Parser) (doc : String)
    (use_cache clear_cache only_text : Bool) : List Event :=
  match p.getText doc use_cache clear_cache with
  | .valueError _ => [.getTextCall idx doc use_cache clear_cache]
  | .otherError _ => [.getTextCall idx doc use_cache clear_cache]
  | .ok text =>
    if text = "" ∨ only_text = true then [.getTextCall idx doc use_cache clear_cache]
    else [.getTextCall idx doc use_cache clear_cache, .extractCall idx doc text]

/-- Outcome of the whole inner loop for one document. -/
inductive DocOutcome where
  | found : List Transaction → DocOutcome
  | textBreak : DocOutcome
  | exhausted : DocOutcome
  | fatal : String → DocOutcome
deriving DecidableEq, Repr

/-- The inner `for parser in parsers` loop of `run_parsers`, started at
position `idx` of the configured list, returning the trace of calls made
and how the loop ended. -/
def tryParsersAux (doc : String) (use_cache clear_cache only_text : Bool) :
    List Parser → Nat → List Event × DocOutcome
  | [], _ => ([], .exhausted)
  | p :: rest, idx =>
    let evs := stepEvents idx p doc use_cache clear_cache only_text
    match stepOut p doc use_cache clear_cache only_text with
    | .next =>
      let r := tryParsersAux doc use_cache clear_cache only_text rest (idx + 1)
      (evs ++ r.1, r.2)
    | .committed ts => (evs, .found ts)
    | .textBreak => (evs, .textBreak)
    | .fatal m => (evs, .fatal m)

/-- The message of the `ValueError` raised at line 146 of the source. -/
def noMatchMsg (doc : String) : String :=
  "No parser returned transactions for " ++ doc ++ "!"

/-- Processing of one document by `run_parsers`: run the inner loop;
`found_parser` is set only on the `committed` break, so both a text-only
break and an exhausted loop reach the
`raise ValueError(f'No parser returned transactions for {pdf_path}!')`;
an uncaught exception propagates as-is. -/
def processDoc (parsers : List Parser) (doc : String)
    (use_cache clear_cache only_text : Bool) :
    List Event × Except PyErr (List Transaction) :=
  let r := tryParsersAux doc use_cache clear_cache only_text parsers 0
  match r.2 with
  | .found ts => (r.1, .ok ts)
  | .fatal m => (r.1, .error (.otherError m))
  | .textBreak => (r.1, .error (.valueError (noMatchMsg doc)))
  | .exhausted => (r.1, .error (.valueError (noMatchMsg doc)))

/-- The outer `for pdf_path in statement_paths` loop: documents are
processed in order, their committed transactions extended onto
`all_transactions`; the first raised error aborts the loop. -/
def runDocs (parsers : List Parser) (use_cache clear_cache only_text : Bool) :
    List String → List Event × Except PyErr (List Transaction)
  | [] => ([], .ok [])
  | d :: rest =>
    let r := processDoc parsers d use_cache clear_cache only_text
    match r.2 with
    | .error e => (r.1, .error e)
    | .ok ts =>
      let r2 := runDocs parsers use_cache clear_cache only_text rest
      match r2.2 with
      | .error e => (r.1 ++ r2.1, .error e)
      | .ok ts2 => (r.1 ++ r2.1, .ok (ts ++ ts2))

/-- The grouping key `t['date'][:-3]` of the source (comment: "remove
day of month"): Python's `s[:-3]` keeps all but the last three
characters and yields the empty string when the string has at most
three. Modelled at the character-sequence level, matching Python's
code-point slicing. -/
def monthKey (date : String) : String :=
  String.mk (date.toList.take (date.toList.length - 3))

/-- One `month_groups` dict update: `ts = month_groups.get(key, []);
ts.append(t); month_groups[key] = ts`. The dict is modelled as an
association list in key insertion order (Python dicts iterate in
insertion order). -/
def insertGroup (groups : List (String × List Transaction)) (key : String)
    (t : Transaction) : List (String × List Transaction) :=
  match groups with
  | [] => [(key, [t])]
  | (k, ts) :: rest =>
    if k = key then (k, ts ++ [t]) :: rest
    else (k, ts) :: insertGroup rest key t

/-- The `for t in all_transactions` grouping loop of `run_parsers`. -/
def groupByMonth (ts : List Transaction) : List (String × List Transaction) :=
  ts.foldl (fun gs t => insertGroup gs (monthKey t.date) t) []

/-- Python's string comparison: lexicographic on code points. -/
def charListLeb : List Char → List Char → Bool
  | [], _ => true
  | _ :: _, [] => false
  | c1 :: t1, c2 :: t2 =>
    if c1.toNat < c2.toNat then true
    else if c2.toNat < c1.toNat then false
    else charListLeb t1 t2

/-- The comparison `sorted(ts, key=lambda k: k['date'])` sorts by:
Python string order on the full `date` field. -/
def dateLe (a b : Transaction) : Bool :=
  charListLeb a.date.toList b.date.toList

/-- `dateLe` as a relation. -/
def dateOrder (a b : Transaction) : Prop := dateLe a b = true

instance : DecidableRel dateOrder :=
  fun a b => Bool.decEq (dateLe a b) true

/-- `sorted(ts, key=lambda k: k['date'])`: a stable sort ascending by
the full `date` string (modelled as insertion sort, stable like
Python's sort). -/
def sortByDate (l : List Transaction) : List Transaction :=
  List.insertionSort dateOrder l

/-- The output loop of `run_parsers`: one file
`output_dir / f'{mo}-transactions.json'` per month group, holding that
group sorted by date (the serialized contents are modelled as the
transaction list itself). -/
def writeMonthFiles (output_dir : String)
    (groups : List (String × List Transaction)) :
    List (String × List Transaction) :=
  groups.map (fun g => (output_dir ++ "/" ++ g.1 ++ "-transactions.json", sortByDate g.2))

/-- `run_parsers(statement_paths, parsers, output_dir, use_cache,
clear_cache, only_text)`: `only_text` forces `use_cache=True` and
`clear_cache=True`; documents are processed in order; after all succeed
the accumulated transactions are grouped by month and written out. The
model returns the call trace together with either the propagated error
or the list of written files. -/
def run_parsers (statement_paths : List String) (parsers : List Parser)
    (output_dir : String) (use_cache clear_cache only_text : Bool) :
    List Event × Except PyErr (List (String × List Transaction)) :=
  let uc := if only_text then true else use_cache
  let cc := if only_text then true else clear_cache
  let r := runDocs parsers uc cc only_text statement_paths
  match r.2 with
  | .error e => (r.1, .error e)
  | .ok allTs => (r.1, .ok (writeMonthFiles output_dir (groupByMonth allTs)))

/-! ### The text cache layer

`PdfParser` persists the OCR text of `file_path` in a sibling file
`file_path.stem + '.txt'`. The relevant filesystem slice for one
document is: whether that cache file exists and what it holds, its
modification time, and the document's modification time. -/

/-- The filesystem state relevant to one document's cache: the contents
of the sibling `.txt` file (`none` when it does not exist), its
modification time, and the source document's modification time. -/
structure CacheState where
  cached : Option String
  cache_mtime : Nat
  doc_mtime : Nat
deriving DecidableEq, Repr

/-- `Path.unlink(missing_ok=...)`: raises `FileNotFoundError` when the
file is absent and `missing_ok` is false, succeeds otherwise. -/
def pathUnlink (present missing_ok : Bool) : Except String Unit :=
  if present then .ok ()
  else if missing_ok then .ok ()
  else .error "FileNotFoundError"

namespace PdfParser

/-- `PdfParser.read_cache`: return the cache file's text when
`cached_text_file.is_file()`, else `None`. No modification-time
comparison appears in the source. -/
def read_cache (st : CacheState) : Option String :=
  match st.cached with
  | some t => some t
  | none => none

/-- `PdfParser.write_cache`: `cached_text_file.write_text(text)`,
creating or overwriting the cache file (its mtime becomes the current
time `now`). -/
def write_cache (st : CacheState) (text : String) (now : Nat) : CacheState :=
  { st with cached := some text, cache_mtime := now }

/-- `PdfParser.delete_cache`: `cached_text_file.unlink(missing_ok=True)`. -/
def delete_cache (st : CacheState) : Except String CacheState :=
  match pathUnlink st.cached.isSome true with
  | .ok _ => .ok { st with cached := none }
  | .error e => .error e

end PdfParser

/-- The overridable cache/conversion hooks `BaseFileParser.get_text`
orchestrates, over a state type `σ`. `to_text` is the document-to-text
conversion (OCR); it reads the document but does not touch the cache. -/
structure FileParserOps (σ : Type) where
  read_cache : σ → Option String
  write_cache : σ → String → σ
  delete_cache : σ → σ
  to_text : σ → String

/-- Result of a `get_text` call: the returned text, the final state, the
`from_cache` flag of the source, how many times `to_text` was invoked,
and whether `write_cache` was invoked. -/
structure GetTextResult (σ : Type) where
  text : String
  state : σ
  from_cache : Bool
  conv_calls : Nat
  wrote : Bool
deriving Repr

/-- The state after the opening `if clear_cache: self.delete_cache(file_path)`
of `get_text`. -/
def afterClear {σ : Type} (ops : FileParserOps σ) (st : σ) (cc : Bool) : σ :=
  if cc then ops.delete_cache st else st

/-- The value `text` holds after the
`if use_cache and not clear_cache: text = self.read_cache(file_path)`
step of `get_text`: the read is attempted only under that guard. -/
def cacheAttempt {σ : Type} (ops : FileParserOps σ) (st : σ) (uc cc : Bool) :
    Option String :=
  if uc && !cc then ops.read_cache (afterClear ops st cc) else none

namespace BaseFileParser

/-- `BaseFileParser.get_text(file_path, use_cache, clear_cache)` (lines
55-68 of the source): if `clear_cache`, delete the cache; if `use_cache
and not clear_cache`, try `read_cache` and mark `from_cache` on a hit;
if `text` is still `None`, call `to_text`; finally `if text and not
from_cache and use_cache`, write the text back. -/
def get_text {σ : Type} (ops : FileParserOps σ) (st : σ)
    (use_cache clear_cache : Bool) : GetTextResult σ :=
  match cacheAttempt ops st use_cache clear_cache with
  | some t =>
    { text := t, state := afterClear ops st clear_cache,
      from_cache := true, conv_calls := 0, wrote := false }
  | none =>
    let t := ops.to_text (afterClear ops st clear_cache)
    if t = "" then
      { text := t, state := afterClear ops st clear_cache,
        from_cache := false, conv_calls := 1, wrote := false }
    else if use_cache then
      { text := t, state := ops.write_cache (afterClear ops st clear_cache) t,
        from_cache := false, conv_calls := 1, wrote := true }
    else
      { text := t, state := afterClear ops st clear_cache,
        from_cache := false, conv_calls := 1, wrote := false }

end BaseFileParser

/-- `PdfParser`'s instantiation of the hooks, for a document whose OCR
conversion yields `conv` and with `now` the mtime a cache write gets.
`delete_cache` never fails (`missing_ok=True`), so its state projection
is total. -/
def pdfOps (conv : String) (now : Nat) : FileParserOps CacheState where
  read_cache := PdfParser.read_cache
  write_cache := fun st t => PdfParser.write_cache st t now
  delete_cache := fun st =>
    match PdfParser.delete_cache st with
    | .ok st2 => st2
    | .error _ => st
  to_text := fun _ => conv

/-! ### Concrete fixtures used by witnesses and counterexamples -/

/-- A witness state for the cache theorems: the cache file exists with
text `"OLD"` but is older (mtime 0) than the source document (mtime 5),
i.e. it is stale in the spec's sense. -/
def staleState : CacheState :=
  { cached := some "OLD", cache_mtime := 0, doc_mtime := 5 }

/-- A transaction dated 2023-04-01. -/
def tApr01 : Transaction := ⟨"2023-04-01", "rent"⟩

/-- A transaction dated 2023-04-15. -/
def tApr15 : Transaction := ⟨"2023-04-15", "coffee"⟩

/-- A transaction dated 2023-05-02. -/
def tMay02 : Transaction := ⟨"2023-05-02", "grocery"⟩

/-- A transaction whose date is not the standard 10-character ISO form. -/
def tShort : Transaction := ⟨"2023-04-1", "odd"⟩

/-- A parser that produces text and extracts one transaction. -/
def okParser : Parser where
  getText := fun _ _ _ => .ok "STMT TEXT"
  toTransactions := fun _ => .ok [tApr15]

/-- A parser that produces text but extracts an empty list. -/
def emptyParser : Parser where
  getText := fun _ _ _ => .ok "STMT TEXT"
  toTransactions := fun _ => .ok []

/-- A parser whose extraction raises `ValueError` (unsupported format),
like `PdfTestParser` in the source. -/
def veParser : Parser where
  getText := fun _ _ _ => .ok "STMT TEXT"
  toTransactions := fun _ => .valueError "unsupported format"

/-- A parser whose text production raises an exception that is not a
`ValueError` (for example an OCR crash). -/
def fatalParser : Parser where
  getText := fun _ _ _ => .otherError "ocr crashed"
  toTransactions := fun _ => .ok []

/-- A parser like `PdfTestParser` in the source: it produces text but
its `to_transactions` always raises `ValueError`. -/
def textOnlyParser : Parser where
  getText := fun _ _ _ => .ok "PAGE TEXT"
  toTransactions := fun _ => .valueError "This parser is only for outputing text!"

/-! ### Theorems about the cache layer -/

/-- C8: `PdfParser.delete_cache` removes any persisted cached text and is
idempotent: it succeeds (returns `ok`, raising no error) even when no
cached text exists, and running it on an already-cleared state returns
that state unchanged, so two calls leave the same state as one. -/
theorem delete_cache_idempotent (st : CacheState) :
    PdfParser.delete_cache st = .ok { st with cached := none }
    ∧ PdfParser.delete_cache { st with cached := none }
        = .ok { st with cached := none } := by
  cases h : st.cached <;>
    simp [PdfParser.delete_cache, pathUnlink, h]

/-- C2: the `get_text` orchestration contract. Writing `st1` for the
state after the initial conditional invalidation and `cacheAttempt` for
the guarded cache read (attempted exactly when `use_cache` is true and
`clear_cache` is false): the conversion `to_text` runs at most once and
exactly when the read yielded nothing; a cache hit is returned verbatim
with no conversion and no write; the result is written back exactly when
it is non-empty, `use_cache` is set, and the text did not come from the
cache. -/
theorem get_text_contract {σ : Type} (ops : FileParserOps σ) (st : σ)
    (uc cc : Bool) :
    (BaseFileParser.get_text ops st uc cc).conv_calls ≤ 1
    ∧ ((BaseFileParser.get_text ops st uc cc).conv_calls = 1 ↔
        cacheAttempt ops st uc cc = none)
    ∧ ((BaseFileParser.get_text ops st uc cc).from_cache = true ↔
        ∃ t, cacheAttempt ops st uc cc = some t)
    ∧ (∀ t, cacheAttempt ops st uc cc = some t →
        (BaseFileParser.get_text ops st uc cc).text = t
        ∧ (BaseFileParser.get_text ops st uc cc).conv_calls = 0
        ∧ (BaseFileParser.get_text ops st uc cc).wrote = false
        ∧ (BaseFileParser.get_text ops st uc cc).state = afterClear ops st cc)
    ∧ (cacheAttempt ops st uc cc = none →
        (BaseFileParser.get_text ops st uc cc).text
          = ops.to_text (afterClear ops st cc))
    ∧ ((BaseFileParser.get_text ops st uc cc).wrote = true ↔
        ((BaseFileParser.get_text ops st uc cc).text ≠ ""
          ∧ (BaseFileParser.get_text ops st uc cc).from_cache = false
          ∧ uc = true))
    ∧ ((BaseFileParser.get_text ops st uc cc).wrote = true →
        (BaseFileParser.get_text ops st uc cc).state
          = ops.write_cache (afterClear ops st cc)
              (BaseFileParser.get_text ops st uc cc).text)
    ∧ ((BaseFileParser.get_text ops st uc cc).wrote = false →
        (BaseFileParser.get_text ops st uc cc).state = afterClear ops st cc) := by
  cases h : cacheAttempt ops st uc cc with
  | some t => simp [BaseFileParser.get_text, h]
  | none =>
    cases he : decide (ops.to_text (afterClear ops st cc) = "") with
    | true =>
      simp only [decide_eq_true_eq] at he
      simp [BaseFileParser.get_text, h, he]
    | false =>
      simp only [decide_eq_false_iff_not] at he
      cases uc <;> simp [BaseFileParser.get_text, h, he]


/-- C2 witness: the contract evaluated on `PdfParser`'s hooks at a
concrete state: the cache read yields `"OLD"`, so the call returns it
with no conversion, no write, and an unchanged state. -/
theorem get_text_contract_witness :
    (BaseFileParser.get_text (pdfOps "FRESH" 9) staleState true false).text = "OLD"
    ∧ (BaseFileParser.get_text (pdfOps "FRESH" 9) staleState true false).conv_calls = 0
    ∧ (BaseFileParser.get_text (pdfOps "FRESH" 9) staleState true false).wrote = false
    ∧ (BaseFileParser.get_text (pdfOps "FRESH" 9) staleState true false).state
        = afterClear (pdfOps "FRESH" 9) staleState false :=
  (get_text_contract (pdfOps "FRESH" 9) staleState true false).2.2.2.1 "OLD" (by decide)

/-- C3 counterexample: a stale cache (cache mtime 0 < document mtime 5)
is NOT treated as absent: `read_cache` returns the stale text, and
`get_text` with `use_cache=true` returns it without invoking the
converter and without overwriting the cache — contradicting the claim
that staleness forces reconversion. -/
theorem read_cache_stale_counterexample :
    staleState.cache_mtime < staleState.doc_mtime
    ∧ PdfParser.read_cache staleState = some "OLD"
    ∧ (BaseFileParser.get_text (pdfOps "FRESH" 9) staleState true false).text = "OLD"
    ∧ (BaseFileParser.get_text (pdfOps "FRESH" 9) staleState true false).conv_calls = 0
    ∧ (BaseFileParser.get_text (pdfOps "FRESH" 9) staleState true false).state
        = staleState := by
  decide

/-- C3 amended: `PdfParser.read_cache` returns the persisted text if and
only if the cache artifact exists, with no staleness (modification-time)
check whatsoever; consequently whenever a cache file exists, `get_text`
with `use_cache=true, clear_cache=false` returns its text — stale or
not — without invoking the converter and leaves the state unchanged. -/
theorem read_cache_existence_only (st : CacheState) :
    PdfParser.read_cache st = st.cached
    ∧ (∀ t, st.cached = some t → ∀ conv now,
        (BaseFileParser.get_text (pdfOps conv now) st true false).text = t
        ∧ (BaseFileParser.get_text (pdfOps conv now) st true false).conv_calls = 0
        ∧ (BaseFileParser.get_text (pdfOps conv now) st true false).state = st) := by
  constructor
  · cases h : st.cached <;> simp [PdfParser.read_cache, h]
  · intro t h conv now
    simp [BaseFileParser.get_text, cacheAttempt, afterClear, pdfOps,
      PdfParser.read_cache, h]

/-- C3 amended, witness: on the concrete stale state the cached text
`"OLD"` is returned unconverted even though a fresh conversion would
yield `"FRESH"`. -/
theorem read_cache_existence_only_witness :
    (BaseFileParser.get_text (pdfOps "FRESH" 9) staleState true false).text = "OLD"
    ∧ (BaseFileParser.get_text (pdfOps "FRESH" 9) staleState true false).conv_calls = 0
    ∧ (BaseFileParser.get_text (pdfOps "FRESH" 9) staleState true false).state
        = staleState :=
  (read_cache_existence_only staleState).2 "OLD" rfl "FRESH" 9

/-! ### Trace lemmas for the fallback pipeline -/

/-- The calls one inner-loop iteration can record: its own `get_text`
call, or a `to_transactions` call on that parser and document. -/
theorem stepEvents_cases (idx : Nat) (p : Parser) (doc : String)
    (uc cc ot : Bool) (e : Event) (he : e ∈ stepEvents idx p doc uc cc ot) :
    e = Event.getTextCall idx doc uc cc
    ∨ ∃ t, e = Event.extractCall idx doc t := by
  cases hg : p.getText doc uc cc with
  | ok t =>
    simp only [stepEvents, hg] at he
    split at he
    · simp at he
      exact Or.inl he
    · simp at he
      rcases he with rfl | rfl
      · exact Or.inl rfl
      · exact Or.inr ⟨_, rfl⟩
  | valueError m =>
    simp only [stepEvents, hg] at he
    simp at he
    exact Or.inl he
  | otherError m =>
    simp only [stepEvents, hg] at he
    simp at he
    exact Or.inl he

/-- Every call recorded by one inner-loop iteration concerns the
document and parser position of that iteration, and every `get_text`
call carries exactly the loop's cache flags. -/
theorem mem_stepEvents (idx : Nat) (p : Parser) (doc : String)
    (uc cc ot : Bool) (e : Event) (he : e ∈ stepEvents idx p doc uc cc ot) :
    e.doc = doc ∧ e.parserIdx = idx
    ∧ (∀ i d u c, e = Event.getTextCall i d u c → u = uc ∧ c = cc) := by
  rcases stepEvents_cases idx p doc uc cc ot e he with rfl | ⟨t, rfl⟩
  · refine ⟨rfl, rfl, ?_⟩
    intro i d u c h
    cases h
    exact ⟨rfl, rfl⟩
  · refine ⟨rfl, rfl, ?_⟩
    intro i d u c h
    simp at h

/-- Every call recorded by the inner loop started at position `idx`
concerns the loop's document, is sent to a parser at position ≥ `idx`,
and every `get_text` call carries the loop's cache flags. -/
theorem mem_tryParsersAux (doc : String) (uc cc ot : Bool) :
    ∀ (ps : List Parser) (idx : Nat) (e : Event),
      e ∈ (tryParsersAux doc uc cc ot ps idx).1 →
      e.doc = doc ∧ idx ≤ e.parserIdx
      ∧ (∀ i d u c, e = Event.getTextCall i d u c → u = uc ∧ c = cc) := by
  intro ps
  induction ps with
  | nil =>
    intro idx e he
    simp [tryParsersAux] at he
  | cons p rest ih =>
    intro idx e he
    unfold tryParsersAux at he
    cases hs : stepOut p doc uc cc ot <;> rw [hs] at he <;> simp at he
    case next =>
      rcases he with he | he
      · have h := mem_stepEvents idx p doc uc cc ot e he
        exact ⟨h.1, le_of_eq h.2.1.symm, h.2.2⟩
      · have h := ih (idx + 1) e he
        exact ⟨h.1, by omega, h.2.2⟩
    all_goals
      have h := mem_stepEvents idx p doc uc cc ot e he
      exact ⟨h.1, le_of_eq h.2.1.symm, h.2.2⟩

/-- The trace of `processDoc` is the trace of its inner loop. -/
theorem processDoc_fst (parsers : List Parser) (doc : String)
    (uc cc ot : Bool) :
    (processDoc parsers doc uc cc ot).1
      = (tryParsersAux doc uc cc ot parsers 0).1 := by
  unfold processDoc
  cases h : (tryParsersAux doc uc cc ot parsers 0).2 <;> simp [h]

/-- Every call made while processing one document concerns that
document and carries the run's cache flags. -/
theorem mem_processDoc (parsers : List Parser) (doc : String)
    (uc cc ot : Bool) (e : Event)
    (he : e ∈ (processDoc parsers doc uc cc ot).1) :
    e.doc = doc
    ∧ (∀ i d u c, e = Event.getTextCall i d u c → u = uc ∧ c = cc) := by
  rw [processDoc_fst] at he
  have h := mem_tryParsersAux doc uc cc ot parsers 0 e he
  exact ⟨h.1, h.2.2⟩

/-- Every call made by the outer document loop concerns one of the
documents in the list and carries the run's cache flags. -/
theorem mem_runDocs (parsers : List Parser) (uc cc ot : Bool) :
    ∀ (docs : List String) (e : Event),
      e ∈ (runDocs parsers uc cc ot docs).1 →
      e.doc ∈ docs
      ∧ (∀ i d u c, e = Event.getTextCall i d u c → u = uc ∧ c = cc) := by
  intro docs
  induction docs with
  | nil =>
    intro e he
    simp [runDocs] at he
  | cons d rest ih =>
    intro e he
    cases h1 : (processDoc parsers d uc cc ot).2 with
    | error err =>
      simp only [runDocs, h1] at he
      have h := mem_processDoc parsers d uc cc ot e he
      exact ⟨by simp [h.1], h.2⟩
    | ok ts =>
      cases h2 : (runDocs parsers uc cc ot rest).2 <;>
        simp only [runDocs, h1, h2, List.mem_append] at he <;>
        rcases he with he | he
      · have h := mem_processDoc parsers d uc cc ot e he
        exact ⟨by simp [h.1], h.2⟩
      · have h := ih e he
        exact ⟨by simp [h.1], h.2⟩
      · have h := mem_processDoc parsers d uc cc ot e he
        exact ⟨by simp [h.1], h.2⟩
      · have h := ih e he
        exact ⟨by simp [h.1], h.2⟩

/-- The trace of `run_parsers` is the trace of its document loop, run
with the (possibly text-only-forced) cache flags. -/
theorem run_parsers_fst (docs : List String) (parsers : List Parser)
    (out : String) (uc cc ot : Bool) :
    (run_parsers docs parsers out uc cc ot).1
      = (runDocs parsers (if ot then true else uc) (if ot then true else cc)
          ot docs).1 := by
  cases h : (runDocs parsers (if ot then true else uc) (if ot then true else cc)
      ot docs).2 <;> simp only [run_parsers, h]

/-! ### First-match commitment (C1) -/

/-- If every parser before position `i` falls through and the parser at
position `i` breaks with a committed transaction list, the inner loop
started at `idx` ends `found` with that list, and every recorded call
goes to a parser at position at most `idx + i`. -/
theorem tryParsersAux_first_commit (doc : String) (uc cc : Bool) :
    ∀ (parsers : List Parser) (i idx : Nat) (hi : i < parsers.length)
      (ts : List Transaction),
      (∀ j (hj : j < parsers.length), j < i →
        stepOut (parsers.get ⟨j, hj⟩) doc uc cc false = .next) →
      stepOut (parsers.get ⟨i, hi⟩) doc uc cc false = .committed ts →
      (tryParsersAux doc uc cc false parsers idx).2 = .found ts
      ∧ ∀ e ∈ (tryParsersAux doc uc cc false parsers idx).1,
          e.parserIdx ≤ idx + i := by
  intro parsers
  induction parsers with
  | nil =>
    intro i idx hi
    exact absurd hi (by simp)
  | cons p rest ih =>
    intro i idx hi ts hbefore hcommit
    cases i with
    | zero =>
      have hp : stepOut p doc uc cc false = .committed ts := hcommit
      constructor
      · simp only [tryParsersAux, hp]
      · intro e he
        simp only [tryParsersAux, hp] at he
        have h := mem_stepEvents idx p doc uc cc false e he
        omega
    | succ n =>
      have hp : stepOut p doc uc cc false = .next :=
        hbefore 0 (by simp) (Nat.succ_pos n)
      have hrest := ih n (idx + 1) (by simpa using hi) ts
        (fun j hj hjn => hbefore (j + 1) (by simpa using hj)
          (Nat.succ_lt_succ hjn))
        hcommit
      constructor
      · simp only [tryParsersAux, hp]
        exact hrest.1
      · intro e he
        simp only [tryParsersAux, hp, List.mem_append] at he
        rcases he with he | he
        · have h := mem_stepEvents idx p doc uc cc false e he
          omega
        · have h := hrest.2 e he
          omega

/-- C1: for every document and ordered parser list, `run_parsers` tries
the parsers in the configured order and commits to the first one whose
`to_transactions` yields at least one transaction: when each parser
before position `i` falls through (empty text, a caught `ValueError`, or
an empty transaction list) and the parser at position `i` commits to a
non-empty list `ts`, the document contributes exactly `ts` (appended to
the run's collection), and every `get_text` or `to_transactions` call
for the document goes to a parser at position at most `i` — no later
parser is queried. -/
theorem first_match_commits (parsers : List Parser) (doc : String)
    (uc cc : Bool) (i : Nat) (hi : i < parsers.length)
    (ts : List Transaction)
    (hbefore : ∀ j (hj : j < parsers.length), j < i →
      stepOut (parsers.get ⟨j, hj⟩) doc uc cc false = .next)
    (hcommit : stepOut (parsers.get ⟨i, hi⟩) doc uc cc false
      = .committed ts) :
    (processDoc parsers doc uc cc false).2 = .ok ts
    ∧ (∀ e ∈ (processDoc parsers doc uc cc false).1, e.parserIdx ≤ i)
    ∧ (∀ rest ts2, (runDocs parsers uc cc false rest).2 = .ok ts2 →
        (runDocs parsers uc cc false (doc :: rest)).2 = .ok (ts ++ ts2)) := by
  have h := tryParsersAux_first_commit doc uc cc parsers i 0 hi ts
    hbefore hcommit
  have hout : (processDoc parsers doc uc cc false).2 = .ok ts := by
    simp only [processDoc, h.1]
  refine ⟨hout, ?_, ?_⟩
  · intro e he
    rw [processDoc_fst] at he
    simpa using h.2 e he
  · intro rest ts2 h2
    simp only [runDocs, hout, h2]

/-- C1 witness: with parsers [empty, ok, unsupported], the pipeline
falls through the empty parser, commits to the `ok` parser at position
1, and queries no parser beyond position 1. -/
theorem first_match_commits_witness :
    (processDoc [emptyParser, okParser, veParser] "a.pdf" true false false).2
      = .ok [tApr15]
    ∧ (runDocs [emptyParser, okParser, veParser] true false false
        ["a.pdf"]).2 = .ok ([tApr15] ++ []) := by
  have h := first_match_commits [emptyParser, okParser, veParser] "a.pdf"
    true false 1 (by decide) [tApr15]
    (by
      intro j hj hj1
      have hj0 : j = 0 := by omega
      subst hj0
      exact (by decide :
        stepOut emptyParser "a.pdf" true false false = StepOut.next))
    (by decide)
  exact ⟨h.1, h.2.2 [] [] rfl⟩

/-! ### The no-match fatal path (C5) -/

/-- If every document in `pre` is processed successfully and the inner
loop exhausts all parsers on `d`, the document loop over
`pre ++ d :: post` raises the "no parser matched" `ValueError` naming
`d`, and every call it made concerns a document of `pre` or `d`. -/
theorem runDocs_no_match (parsers : List Parser) (uc cc : Bool) :
    ∀ (pre : List String) (d : String) (post : List String),
      (∀ d2 ∈ pre, ∃ ts, (processDoc parsers d2 uc cc false).2 = .ok ts) →
      (tryParsersAux d uc cc false parsers 0).2 = .exhausted →
      (runDocs parsers uc cc false (pre ++ d :: post)).2
        = .error (.valueError (noMatchMsg d))
      ∧ ∀ e ∈ (runDocs parsers uc cc false (pre ++ d :: post)).1,
          e.doc ∈ pre ∨ e.doc = d := by
  intro pre
  induction pre with
  | nil =>
    intro d post hpre hd
    have hout : (processDoc parsers d uc cc false).2
        = .error (.valueError (noMatchMsg d)) := by
      simp only [processDoc, hd]
    constructor
    · simp only [List.nil_append, runDocs, hout]
    · intro e he
      simp only [List.nil_append, runDocs, hout] at he
      exact Or.inr (mem_processDoc parsers d uc cc false e he).1
  | cons p0 pre' ih =>
    intro d post hpre hd
    obtain ⟨ts, hts⟩ := hpre p0 (by simp)
    have ih2 := ih d post (fun d2 h2 => hpre d2 (by simp [h2])) hd
    constructor
    · simp only [List.cons_append, runDocs, List.append_eq, hts, ih2.1]
    · intro e he
      simp only [List.cons_append, runDocs, List.append_eq, hts, ih2.1,
        List.mem_append] at he
      rcases he with he | he
      · exact Or.inl (by simp [(mem_processDoc parsers p0 uc cc false e he).1])
      · rcases ih2.2 e he with h | h
        · exact Or.inl (by simp [h])
        · exact Or.inr h

/-- C5: when no configured parser yields transactions for a document,
`run_parsers` raises a fatal `ValueError` whose message names that
document, and no document after it in the batch is processed: assuming
the documents before `d` succeed and the parser loop exhausts on `d`,
the run's result is the no-match error for `d` and every recorded call
concerns a document at or before `d` — none concerns `post`. -/
theorem no_match_aborts_run (pre : List String) (d : String)
    (post : List String) (parsers : List Parser) (out : String)
    (uc cc : Bool)
    (hpre : ∀ d2 ∈ pre, ∃ ts, (processDoc parsers d2 uc cc false).2 = .ok ts)
    (hd : (tryParsersAux d uc cc false parsers 0).2 = .exhausted) :
    (run_parsers (pre ++ d :: post) parsers out uc cc false).2
      = .error (.valueError (noMatchMsg d))
    ∧ ∀ e ∈ (run_parsers (pre ++ d :: post) parsers out uc cc false).1,
        e.doc ∈ pre ∨ e.doc = d := by
  have h := runDocs_no_match parsers uc cc pre d post hpre hd
  constructor
  · simp only [run_parsers, if_neg (by simp : ¬false = true), h.1]
  · intro e he
    rw [run_parsers_fst] at he
    exact h.2 e (by simpa using he)

/-- C5 witness: a batch of two documents where the only parser extracts
nothing from the first: the run aborts with the no-match error naming
`a.pdf` and the trace never touches `b.pdf`. -/
theorem no_match_aborts_run_witness :
    (run_parsers ["a.pdf", "b.pdf"] [emptyParser] "out" true false
        false).2 = .error (.valueError (noMatchMsg "a.pdf")) :=
  (no_match_aborts_run [] "a.pdf" ["b.pdf"] [emptyParser] "out" true false
    (by simp) (by decide)).1

/-! ### Error taxonomy of the fallback loop (C6) -/

/-- C6: a `ValueError` raised by a parser's `get_text` or
`to_transactions` is caught and the loop proceeds to the next parser
with the run intact, while an exception of any other kind is not caught:
it makes the iteration fatal and aborts the entire run with that
error. -/
theorem value_error_caught_other_aborts (doc : String) (uc cc : Bool)
    (m : String) :
    (∀ (p : Parser) (rest : List Parser) (idx : Nat),
      p.getText doc uc cc = .valueError m →
      (tryParsersAux doc uc cc false (p :: rest) idx).2
        = (tryParsersAux doc uc cc false rest (idx + 1)).2)
    ∧ (∀ (p : Parser) (rest : List Parser) (idx : Nat) (t : String),
      p.getText doc uc cc = .ok t → t ≠ "" →
      p.toTransactions t = .valueError m →
      (tryParsersAux doc uc cc false (p :: rest) idx).2
        = (tryParsersAux doc uc cc false rest (idx + 1)).2)
    ∧ (∀ (p : Parser), p.getText doc uc cc = .otherError m →
      stepOut p doc uc cc false = .fatal m)
    ∧ (∀ (p : Parser) (t : String), p.getText doc uc cc = .ok t →
      t ≠ "" → p.toTransactions t = .otherError m →
      stepOut p doc uc cc false = .fatal m)
    ∧ (∀ (parsers : List Parser) (post : List String) (out : String),
      (tryParsersAux doc uc cc false parsers 0).2 = .fatal m →
      (run_parsers (doc :: post) parsers out uc cc false).2
        = .error (.otherError m)) := by
  refine ⟨?_, ?_, ?_, ?_, ?_⟩
  · intro p rest idx h
    have hstep : stepOut p doc uc cc false = .next := by
      simp [stepOut, h]
    simp only [tryParsersAux, hstep]
  · intro p rest idx t h1 h2 h3
    have hstep : stepOut p doc uc cc false = .next := by
      simp [stepOut, h1, h2, h3]
    simp only [tryParsersAux, hstep]
  · intro p h
    simp [stepOut, h]
  · intro p t h1 h2 h3
    simp [stepOut, h1, h2, h3]
  · intro parsers post out h
    have hproc : (processDoc parsers doc uc cc false).2
        = .error (.otherError m) := by
      simp only [processDoc, h]
    have hdocs : (runDocs parsers uc cc false (doc :: post)).2
        = .error (.otherError m) := by
      simp only [runDocs, hproc]
    simp [run_parsers, hdocs]

/-- C6 witness: the unsupported-format parser at position 0 is skipped
(the loop outcome equals starting at position 1), while a non-ValueError
OCR crash aborts the whole two-document run. -/
theorem value_error_caught_other_aborts_witness :
    (tryParsersAux "a.pdf" true false false [veParser, okParser] 0).2
      = (tryParsersAux "a.pdf" true false false [okParser] 1).2
    ∧ (run_parsers ["a.pdf", "b.pdf"] [fatalParser] "out" true false
        false).2 = .error (.otherError "ocr crashed") := by
  constructor
  · exact (value_error_caught_other_aborts "a.pdf" true false
      "unsupported format").2.1 veParser [okParser] 0 "STMT TEXT" rfl
      (by decide) rfl
  · exact (value_error_caught_other_aborts "a.pdf" true false
      "ocr crashed").2.2.2.2 [fatalParser] ["b.pdf"] "out" rfl

/-! ### Text-only mode (C7, C9) -/


/-- C7 (code bug): in text-only mode the pipeline does stop after the
first parser whose `get_text` returns non-empty text and attempts no
extraction (the trace is a single `get_text` call), but the run then
fails for that document rather than proceeding normally: the text-only
`break` never sets `found_parser`, so `run_parsers` falls into the
`raise ValueError('No parser returned transactions for ...')` at the
end of the parser loop. -/
theorem only_text_mode_raises_no_match :
    (run_parsers ["a.pdf"] [textOnlyParser] "out" true false true).1
      = [Event.getTextCall 0 "a.pdf" true true]
    ∧ (run_parsers ["a.pdf"] [textOnlyParser] "out" true false true).2
      = .error (.valueError (noMatchMsg "a.pdf")) :=
  ⟨rfl, rfl⟩

/-- C9 counterexample: with two documents and caller flags
`use_cache=false, clear_cache=false`, text-only mode invalidates and
rewrites only the FIRST document's cache: the whole trace is the single
`get_text` call for `a.pdf` (with forced flags), `b.pdf`'s `get_text`
is never called — its cache is neither invalidated nor rewritten — and
the run ends in the no-match error after the first document. -/
theorem only_text_second_doc_untouched_counterexample :
    (run_parsers ["a.pdf", "b.pdf"] [textOnlyParser] "out" false false
        true).1 = [Event.getTextCall 0 "a.pdf" true true]
    ∧ (Event.getTextCall 0 "b.pdf" true true
        ∉ (run_parsers ["a.pdf", "b.pdf"] [textOnlyParser] "out" false
            false true).1)
    ∧ (run_parsers ["a.pdf", "b.pdf"] [textOnlyParser] "out" false false
        true).2 = .error (.valueError (noMatchMsg "a.pdf")) :=
  ⟨rfl, by decide, rfl⟩

/-- C9 amended: `run_parsers` with `only_text=true` forces
`use_cache=true` and `clear_cache=true` before processing any document —
the run is identical whatever cache flags the caller passed, and every
`get_text` call in the trace carries the forced flags. For each
`get_text` call so made, `PdfParser`'s cache is invalidated and then
rewritten with the freshly converted text exactly when the conversion is
non-empty. (Documents after the first are nevertheless untouched,
because text-only mode ends in the no-match error after the first
document.) -/
theorem only_text_forces_cache_flags (docs : List String)
    (parsers : List Parser) (out : String) (uc cc : Bool) :
    run_parsers docs parsers out uc cc true
      = run_parsers docs parsers out true true true
    ∧ (∀ i d u c, Event.getTextCall i d u c
        ∈ (run_parsers docs parsers out uc cc true).1 →
        u = true ∧ c = true)
    ∧ (∀ (conv : String) (now : Nat) (st : CacheState),
        (BaseFileParser.get_text (pdfOps conv now) st true true).state.cached
          = (if conv = "" then none else some conv)
        ∧ (BaseFileParser.get_text (pdfOps conv now) st true
            true).conv_calls = 1) := by
  refine ⟨rfl, ?_, ?_⟩
  · intro i d u c hmem
    rw [run_parsers_fst] at hmem
    have h := mem_runDocs parsers true true true docs
      (Event.getTextCall i d u c) (by simpa using hmem)
    exact h.2 i d u c rfl
  · intro conv now st
    by_cases hc : conv = ""
    · subst hc
      simp [BaseFileParser.get_text, cacheAttempt, afterClear, pdfOps,
        PdfParser.delete_cache, pathUnlink]
    · simp [BaseFileParser.get_text, cacheAttempt, afterClear, pdfOps,
        PdfParser.delete_cache, PdfParser.write_cache, pathUnlink, hc]

/-- C9 amended, witness: a concrete text-only run equals its
flag-forced form, and a concrete forced `get_text` clears then rewrites
the stale cache with the fresh conversion. -/
theorem only_text_forces_cache_flags_witness :
    run_parsers ["a.pdf"] [textOnlyParser] "out" false false true
      = run_parsers ["a.pdf"] [textOnlyParser] "out" true true true
    ∧ (BaseFileParser.get_text (pdfOps "FRESH" 9) staleState true
        true).state.cached = some "FRESH" := by
  constructor
  · exact (only_text_forces_cache_flags ["a.pdf"] [textOnlyParser] "out"
      false false).1
  · have h := ((only_text_forces_cache_flags ["a.pdf"] [textOnlyParser]
      "out" false false).2.2 "FRESH" 9 staleState).1
    rw [h]
    decide

/-! ### All-or-nothing output (C10) -/

/-- C10: grouping and output writing happen only after every document in
the batch has been processed successfully: if the document loop raises
any error, `run_parsers` propagates exactly that error and produces no
month output file, even when earlier documents already accumulated
transactions; only when every document succeeds does it write the month
files of the accumulated transactions. -/
theorem outputs_only_after_all_docs (docs : List String)
    (parsers : List Parser) (out : String) (uc cc ot : Bool) :
    (∀ e, (runDocs parsers (if ot then true else uc)
        (if ot then true else cc) ot docs).2 = .error e →
      (run_parsers docs parsers out uc cc ot).2 = .error e)
    ∧ (∀ ts, (runDocs parsers (if ot then true else uc)
        (if ot then true else cc) ot docs).2 = .ok ts →
      (run_parsers docs parsers out uc cc ot).2
        = .ok (writeMonthFiles out (groupByMonth ts))) := by
  constructor
  · intro e h
    simp only [run_parsers, h]
  · intro ts h
    simp only [run_parsers, h]

/-- C10 witness: a run aborted by an uncaught OCR error propagates that
error as its result and writes no month file. -/
theorem outputs_only_after_all_docs_witness :
    (run_parsers ["a.pdf", "b.pdf"] [fatalParser] "out" true false
        false).2 = .error (.otherError "ocr crashed") :=
  (outputs_only_after_all_docs ["a.pdf", "b.pdf"] [fatalParser] "out"
    true false false).1 (.otherError "ocr crashed") rfl


/-! ### Month grouping and aggregation (C4) -/

/-- Unfolding of `charListLeb` on two non-empty lists. -/
theorem charListLeb_cons (c1 c2 : Char) (t1 t2 : List Char) :
    charListLeb (c1 :: t1) (c2 :: t2) = true ↔
      (c1.toNat < c2.toNat
        ∨ (c1.toNat = c2.toNat ∧ charListLeb t1 t2 = true)) := by
  by_cases a1 : c1.toNat < c2.toNat
  · simp [charListLeb, a1]
  · by_cases a2 : c2.toNat < c1.toNat
    · have hne : ¬c1.toNat = c2.toNat := by omega
      simp [charListLeb, a1, a2, hne]
    · have he : c1.toNat = c2.toNat := by omega
      simp [charListLeb, a1, a2, he]

/-- `charListLeb` is total. -/
theorem charListLeb_total : ∀ l1 l2 : List Char,
    charListLeb l1 l2 = true ∨ charListLeb l2 l1 = true := by
  intro l1
  induction l1 with
  | nil => intro l2; left; rfl
  | cons c1 t1 ih =>
    intro l2
    cases l2 with
    | nil => right; rfl
    | cons c2 t2 =>
      rw [charListLeb_cons, charListLeb_cons]
      rcases Nat.lt_trichotomy c1.toNat c2.toNat with h | h | h
      · exact Or.inl (Or.inl h)
      · rcases ih t2 with hr | hr
        · exact Or.inl (Or.inr ⟨h, hr⟩)
        · exact Or.inr (Or.inr ⟨h.symm, hr⟩)
      · exact Or.inr (Or.inl h)

/-- `charListLeb` is transitive. -/
theorem charListLeb_trans : ∀ l1 l2 l3 : List Char,
    charListLeb l1 l2 = true → charListLeb l2 l3 = true →
    charListLeb l1 l3 = true := by
  intro l1
  induction l1 with
  | nil => intro l2 l3 _ _; rfl
  | cons c1 t1 ih =>
    intro l2 l3 h12 h23
    cases l2 with
    | nil => simp [charListLeb] at h12
    | cons c2 t2 =>
      cases l3 with
      | nil => simp [charListLeb] at h23
      | cons c3 t3 =>
        rw [charListLeb_cons] at h12 h23 ⊢
        rcases h12 with h12 | ⟨h12e, h12r⟩
        · rcases h23 with h23 | ⟨h23e, h23r⟩
          · exact Or.inl (by omega)
          · exact Or.inl (by omega)
        · rcases h23 with h23 | ⟨h23e, h23r⟩
          · exact Or.inl (by omega)
          · exact Or.inr ⟨by omega, ih t2 t3 h12r h23r⟩


/-- `sortByDate` permutes its input. -/
theorem sortByDate_perm (l : List Transaction) : (sortByDate l).Perm l :=
  List.perm_insertionSort dateOrder l

/-- `sortByDate` sorts ascending by the full date string. -/
theorem sortByDate_sorted (l : List Transaction) :
    (sortByDate l).Pairwise dateOrder := by
  haveI : IsTotal Transaction dateOrder :=
    ⟨fun a b => charListLeb_total a.date.toList b.date.toList⟩
  haveI : IsTrans Transaction dateOrder :=
    ⟨fun a b c => charListLeb_trans a.date.toList b.date.toList c.date.toList⟩
  exact List.sorted_insertionSort dateOrder l

/-- The keys after a dict update: an existing key keeps the key list,
a new key is appended. -/
theorem insertGroup_keys (gs : List (String × List Transaction))
    (k : String) (t : Transaction) :
    (insertGroup gs k t).map Prod.fst
      = if k ∈ gs.map Prod.fst then gs.map Prod.fst
        else gs.map Prod.fst ++ [k] := by
  induction gs with
  | nil => simp [insertGroup]
  | cons hd tl ih =>
    obtain ⟨k0, ts0⟩ := hd
    by_cases h : k0 = k
    · subst h
      simp [insertGroup]
    · by_cases hm : k ∈ tl.map Prod.fst <;>
        simp [insertGroup, h, Ne.symm h, hm, ih]

/-- Dict updates keep the key list duplicate-free. -/
theorem insertGroup_keys_nodup (gs : List (String × List Transaction))
    (k : String) (t : Transaction) (h : (gs.map Prod.fst).Nodup) :
    ((insertGroup gs k t).map Prod.fst).Nodup := by
  rw [insertGroup_keys]
  split
  · exact h
  · next hk => simp [List.nodup_append, h, hk]

/-- Dict updates preserve the group invariant: every group is non-empty
and holds only transactions whose month key is the group's key. -/
theorem insertGroup_groups (gs : List (String × List Transaction))
    (k : String) (t : Transaction) (hk : monthKey t.date = k)
    (h : ∀ g ∈ gs, g.2 ≠ [] ∧ ∀ x ∈ g.2, monthKey x.date = g.1) :
    ∀ g ∈ insertGroup gs k t,
      g.2 ≠ [] ∧ ∀ x ∈ g.2, monthKey x.date = g.1 := by
  induction gs with
  | nil =>
    intro g hg
    simp [insertGroup] at hg
    subst hg
    exact ⟨by simp, by simpa using hk⟩
  | cons hd tl ih =>
    obtain ⟨k0, ts0⟩ := hd
    intro g hg
    by_cases hkk : k0 = k
    · subst hkk
      simp [insertGroup] at hg
      rcases hg with rfl | hg
      · have h0 := h (k0, ts0) (by simp)
        refine ⟨by simp, ?_⟩
        intro x hx
        rcases List.mem_append.mp hx with hx | hx
        · exact h0.2 x hx
        · simp at hx
          subst hx
          exact hk
      · exact h g (by simp [hg])
    · simp [insertGroup, hkk] at hg
      rcases hg with rfl | hg
      · exact h (k0, ts0) (by simp)
      · exact ih (fun g2 hg2 => h g2 (by simp [hg2])) g hg

/-- A dict update appends the inserted transaction to the flattened
groups, up to permutation. -/
theorem insertGroup_flatMap_perm (gs : List (String × List Transaction))
    (k : String) (t : Transaction) :
    ((insertGroup gs k t).flatMap Prod.snd).Perm
      (gs.flatMap Prod.snd ++ [t]) := by
  induction gs with
  | nil => simp [insertGroup]
  | cons hd tl ih =>
    obtain ⟨k0, ts0⟩ := hd
    by_cases h : k0 = k
    · subst h
      have heq : insertGroup ((k0, ts0) :: tl) k0 t
          = (k0, ts0 ++ [t]) :: tl := by
        simp [insertGroup]
      rw [heq, List.flatMap_cons, List.flatMap_cons, List.append_assoc,
        List.append_assoc]
      exact List.Perm.append_left ts0 List.perm_append_comm
    · have heq : insertGroup ((k0, ts0) :: tl) k t
          = (k0, ts0) :: insertGroup tl k t := by
        simp [insertGroup, h]
      rw [heq, List.flatMap_cons, List.flatMap_cons, List.append_assoc]
      exact List.Perm.append_left ts0 ih

/-- Invariants of the whole grouping fold: the flattened result extends
the accumulator by the processed transactions (up to permutation), keys
stay duplicate-free, and the group invariant is preserved. -/
theorem groupByMonth_foldl (ts : List Transaction) :
    ∀ gs : List (String × List Transaction),
      ((ts.foldl (fun gs t => insertGroup gs (monthKey t.date) t)
          gs).flatMap Prod.snd).Perm (gs.flatMap Prod.snd ++ ts)
      ∧ ((gs.map Prod.fst).Nodup →
          ((ts.foldl (fun gs t => insertGroup gs (monthKey t.date) t)
            gs).map Prod.fst).Nodup)
      ∧ ((∀ g ∈ gs, g.2 ≠ [] ∧ ∀ x ∈ g.2, monthKey x.date = g.1) →
          ∀ g ∈ ts.foldl (fun gs t => insertGroup gs (monthKey t.date) t) gs,
            g.2 ≠ [] ∧ ∀ x ∈ g.2, monthKey x.date = g.1) := by
  induction ts with
  | nil =>
    intro gs
    exact ⟨by simp, fun h => by simpa using h, fun h => by simpa using h⟩
  | cons t ts ih =>
    intro gs
    refine ⟨?_, ?_, ?_⟩
    · rw [List.foldl_cons]
      refine ((ih (insertGroup gs (monthKey t.date) t)).1).trans ?_
      refine ((insertGroup_flatMap_perm gs (monthKey t.date)
        t).append_right ts).trans ?_
      rw [List.append_assoc]
      exact List.Perm.refl _
    · intro hnd
      rw [List.foldl_cons]
      exact (ih (insertGroup gs (monthKey t.date) t)).2.1
        (insertGroup_keys_nodup gs (monthKey t.date) t hnd)
    · intro hinv g hg
      rw [List.foldl_cons] at hg
      exact (ih (insertGroup gs (monthKey t.date) t)).2.2
        (insertGroup_groups gs (monthKey t.date) t rfl hinv) g hg

/-- C4 counterexample: for a transaction dated `"2023-04-1"` (nine
characters), grouping uses `date[:-3] = "2023-0"` — not the first seven
characters `"2023-04"` — so the output file is
`out/2023-0-transactions.json` rather than one named from the
year-month prefix. -/
theorem month_grouping_counterexample :
    groupByMonth [tShort] = [("2023-0", [tShort])]
    ∧ monthKey tShort.date ≠ String.mk (tShort.date.toList.take 7)
    ∧ String.mk (tShort.date.toList.take 7) = "2023-04"
    ∧ writeMonthFiles "out" (groupByMonth [tShort])
        = [("out/2023-0-transactions.json", [tShort])] := by
  decide

/-- C4 amended: aggregation groups the accumulated transactions by the
key obtained by dropping the LAST THREE characters of the `date` field
(this equals the first seven characters exactly when the date is the
standard 10-character ISO form), sorts each group ascending by the full
`date` string, and writes exactly one output file per (necessarily
non-empty) group, named `<key>-transactions.json` from the group key:
group keys are duplicate-free, every group member carries the group's
key, and the flattened groups are a permutation of the input. -/
theorem aggregation_spec (ts : List Transaction) (out : String) :
    ((groupByMonth ts).map Prod.fst).Nodup
    ∧ (∀ g ∈ groupByMonth ts, g.2 ≠ [] ∧ ∀ t ∈ g.2, monthKey t.date = g.1)
    ∧ ((groupByMonth ts).flatMap Prod.snd).Perm ts
    ∧ (∀ d : String, d.toList.length = 10 →
        monthKey d = String.mk (d.toList.take 7))
    ∧ writeMonthFiles out (groupByMonth ts)
        = (groupByMonth ts).map
            (fun g => (out ++ "/" ++ g.1 ++ "-transactions.json",
              sortByDate g.2))
    ∧ (∀ l : List Transaction, (sortByDate l).Perm l
        ∧ (sortByDate l).Pairwise dateOrder) := by
  have h := groupByMonth_foldl ts []
  refine ⟨h.2.1 (by simp), h.2.2 (by simp), by simpa using h.1, ?_, rfl, ?_⟩
  · intro d hd
    unfold monthKey
    rw [hd]
  · intro l
    exact ⟨sortByDate_perm l, sortByDate_sorted l⟩

/-- C4 amended, witness: the spec's own example — dates 2023-04-15,
2023-04-01, 2023-05-02 — yields exactly the buckets `2023-04` (two
records, ascending) and `2023-05` (one record), written to the two
expected files. -/
theorem aggregation_spec_witness :
    ((groupByMonth [tApr15, tApr01, tMay02]).map Prod.fst).Nodup
    ∧ ((groupByMonth [tApr15, tApr01, tMay02]).flatMap Prod.snd).Perm
        [tApr15, tApr01, tMay02]
    ∧ monthKey "2023-04-15" = "2023-04"
    ∧ writeMonthFiles "out" (groupByMonth [tApr15, tApr01, tMay02])
        = [("out/2023-04-transactions.json", [tApr01, tApr15]),
           ("out/2023-05-transactions.json", [tMay02])] := by
  have h := aggregation_spec [tApr15, tApr01, tMay02] "out"
  refine ⟨h.1, h.2.2.1, ?_, ?_⟩
  · exact (h.2.2.2.1 "2023-04-15" (by decide)).trans (by decide)
  · exact h.2.2.2.2.1.trans (by decide)

end BankStatement
